import Mathlib

/-!
Shallow embedding of the quest-completer repository (max-4-3/quest-completer).

The embedding translates the Python source into Lean:

* Instants (ISO timestamps in the source) are modelled as integers; the
  current wall-clock instant is an explicit `now` parameter.
* `DotMap` optional attributes become `Option` fields; Python truthiness of
  such a field is `Option.isSome`.
* Python dict iteration (`.values()`, `.keys()`) is modelled by lists kept
  in iteration order.
* Python exceptions (`IndexError` from indexing an empty list) are modelled
  by `Option` results (`none` = the call raises).
* `random.random()` / `random.uniform(a, b)` are modelled by explicit
  rational parameters supplied to the functions (`u ∈ [0, 1]`).
* The `asyncio` protocol loops (`complete_video_quest`,
  `complete_play_quest` in `src/logic/quests.py`) are modelled as fueled
  recursive functions over an explicit discrete clock (one loop iteration
  per 1-second tick for the Watch protocol), recording the traces of remote
  calls and progress-callback emissions.  Remote responses are supplied as
  explicit oracle functions.
-/

/-- A task spec entry: `task_config.tasks[name] = {event_name, target}`. -/
structure TaskEntry where
  event_name : String
  target : ℤ
deriving DecidableEq, Repr

/-- A user-progress entry: `user_status.progress[name] = {event_name, value}`. -/
structure ProgressEntry where
  event_name : String
  value : ℤ
deriving DecidableEq, Repr

/-- A reward descriptor; only its `type` tag is consulted by the filters. -/
structure RewardEntry where
  type : ℤ
deriving DecidableEq, Repr

/-- The `quest.user_status` record — present only after enrollment.  Optional
timestamps are `Option ℤ`; Python truthiness is `isSome`. -/
structure UserStatus where
  enrolled_at : Option ℤ
  completed_at : Option ℤ
  claimed_at : Option ℤ
  progress : List ProgressEntry
deriving DecidableEq, Repr

/-- The fields of `quest.config` consulted by the modelled functions.
`tasks` is the mapping `task_config.tasks` (or `task_config_v2.tasks` when
the primary is absent — the fallback is resolved before embedding, so the
model holds the one mapping the code ends up iterating), in dict iteration
order, as (key, entry) pairs. -/
structure QuestConfig where
  expires_at : ℤ
  rewards_expire_at : Option ℤ
  rewards : List RewardEntry
  tasks : List (String × TaskEntry)
deriving DecidableEq, Repr

/-- A quest record, restricted to the fields the modelled code reads. -/
structure Quest where
  id : ℤ
  config : QuestConfig
  user_status : Option UserStatus
deriving DecidableEq, Repr

/-- Model of `in_past(utc_iso)` from `src/logic/quests.py` / `time_in_past` from
`src/logic/utils.py`: `datetime.now(utc) > datetime.fromisoformat(ts)`,
with the current instant made an explicit `now` parameter. -/
def in_past (now ts : ℤ) : Bool := now > ts

/-- The hard-excluded sentinel quest id from `Filters.Completeable`. -/
def excludedQuestId : ℤ := 1248385850622869556

namespace LogicObjects

/-- Model of `Filters.NotExpired` from `src/logic/objects.py`. -/
def NotExpired (now : ℤ) (x : Quest) : Bool :=
  !in_past now x.config.expires_at

/-- Model of `Filters.Enrollable` from `src/logic/objects.py`. -/
def Enrollable (now : ℤ) (x : Quest) : Bool :=
  x.user_status.isNone && !in_past now x.config.expires_at

/-- Model of `Filters.Completeable` from `src/logic/objects.py`. -/
def Completeable (now : ℤ) (x : Quest) : Bool :=
  decide (x.id ≠ excludedQuestId)
    && (match x.user_status with
        | none => false
        | some us =>
          us.enrolled_at.isSome && us.completed_at.isNone)
    && !in_past now x.config.expires_at

/-- Model of `Filters.Claimable` from `src/logic/objects.py`: requires
`user_status` truthy, quest not expired, `completed_at` set, `claimed_at`
not set, and a rewards-expiry timestamp present and not in the past. -/
def Claimable (now : ℤ) (x : Quest) : Bool :=
  match x.user_status with
  | none => false
  | some us =>
    !in_past now x.config.expires_at
      && us.completed_at.isSome
      && us.claimed_at.isNone
      && (match x.config.rewards_expire_at with
          | none => false
          | some rea => !in_past now rea)

/-- Model of `Filters.Worthy` from `src/logic/objects.py`. -/
def Worthy (now : ℤ) (x : Quest) : Bool :=
  !in_past now x.config.expires_at
    && x.config.rewards.any (fun reward => reward.type == 3 || reward.type == 4)

end LogicObjects

namespace LogicQuests

/-- Model of `Filters.Claimable` from `src/logic/quests.py`.  Unlike the
`src/logic/objects.py` variant, this one has no `claimed_at` conjunct. -/
def Claimable (now : ℤ) (x : Quest) : Bool :=
  match x.user_status with
  | none => false
  | some us =>
    !in_past now x.config.expires_at
      && us.completed_at.isSome
      && (match x.config.rewards_expire_at with
          | none => false
          | some rea => !in_past now rea)

end LogicQuests

/-- The `QuestType` enum (`src/logic/objects.py` / `src/logic/quests.py`);
the source spells the Activity member `Activiy`. -/
inductive QuestType where
  | Unknown
  | Achievement
  | Stream
  | Activiy
  | Play
  | Watch
deriving DecidableEq, Repr

/-- The numeric value of each `QuestType` member (priority ordering). -/
def QuestType.val : QuestType → ℤ
  | .Unknown => -1
  | .Achievement => 0
  | .Stream => 1
  | .Activiy => 2
  | .Play => 3
  | .Watch => 4

/-- Python `str.lower()` on one character, for the ASCII names the quest
records carry (task names are ASCII identifiers such as `WATCH_VIDEO`). -/
def pyLowerChar (c : Char) : Char :=
  if 65 ≤ c.toNat ∧ c.toNat ≤ 90 then Char.ofNat (c.toNat + 32) else c

/-- Python `str.lower()` (ASCII). -/
def pyToLower (s : String) : String := String.mk (s.data.map pyLowerChar)

/-- Python `x.split("_")[0]` / `x.split("_").pop(0)`: the characters up to
the first `_` (for a non-empty separator, `split` always returns a
non-empty list whose first element is the text before the first
separator). -/
def firstSegment (s : String) : String := String.mk (s.data.takeWhile (fun c => c ≠ '_'))

/-- The fixed lookup table `type_map` shared by both classifiers:
`{watch, play, stream, achievement}` plus the explicit `unknown` entry of
the `objects.py` variant; any unmapped name falls to `Unknown`
(`type_map.get(name.lower(), cls.Unknown)` / the `match` default). -/
def questTypeOfSegment (s : String) : QuestType :=
  if s = "watch" then .Watch
  else if s = "play" then .Play
  else if s = "stream" then .Stream
  else if s = "achievement" then .Achievement
  else .Unknown

/-- Model of `QuestType.from_quest` (`src/logic/objects.py`) on the task-name list:
if any name lowercases to `play_activity`, return `Activiy`; otherwise
take the first name, split it on `_`, take the first segment, lowercase
it, and map it through `type_map`; an empty name list raises `IndexError`
inside the `try`, caught and mapped to `Unknown`. -/
def QuestType.fromTaskNames (names : List String) : QuestType :=
  if names.any (fun n => pyToLower n == "play_activity") then .Activiy
  else
    match names.map (fun x => firstSegment x) with
    | [] => .Unknown
    | n :: _ => questTypeOfSegment (pyToLower n)

/-- Model of `QuestType.from_quest` applied to a quest record: the names are the
keys of `task_config.tasks` in dict iteration order. -/
def QuestType.from_quest (quest : Quest) : QuestType :=
  QuestType.fromTaskNames (quest.config.tasks.map (·.1))

/-- Model of `determine_quest_type` (`src/logic/quests.py`) on the task-name list:
same special case, but the first-segment extraction indexes
`list(...)[0]` with no exception handler, so an empty task-name set raises
`IndexError`, modelled as `none`. -/
def determineQuestTypeNames (names : List String) : Option QuestType :=
  if names.any (fun n => pyToLower n == "play_activity") then some .Activiy
  else
    match names.map (fun x => firstSegment (pyToLower x)) with
    | [] => none
    | n :: _ => some (questTypeOfSegment n)

/-- Model of `determine_quest_type` applied to a quest record. -/
def determine_quest_type (quest : Quest) : Option QuestType :=
  determineQuestTypeNames (quest.config.tasks.map (·.1))

/-- Python `max(l, key=lambda x: x[1])` over (name, value) pairs: keeps the
first maximal element (a later element replaces the accumulator only when
its key is strictly greater).  `none` on the empty list (`ValueError`). -/
def pyMaxBySnd (l : List (String × ℤ)) : Option (String × ℤ) :=
  match l with
  | [] => none
  | x :: xs => some (xs.foldl (fun acc y => if y.2 > acc.2 then y else acc) x)

/-- Python `min(l, key=lambda x: x[1])` over (name, value) pairs: keeps the
first minimal element. -/
def pyMinBySnd (l : List (String × ℤ)) : Option (String × ℤ) :=
  match l with
  | [] => none
  | x :: xs => some (xs.foldl (fun acc y => if y.2 < acc.2 then y else acc) x)

/-- Dict lookup `task_config.tasks[name]`: `none` when the key is absent
(the Python `DotMap` would hand back an empty map there; the model treats
that degenerate access as failure). -/
def lookupTask (tasks : List (String × TaskEntry)) (name : String) : Option TaskEntry :=
  (tasks.find? (fun p => p.1 == name)).map (·.2)

/-- Model of `get_progress` (`src/logic/quests.py`) = `get_quest_progress`
(`src/logic/helpers.py`): returns `(task_name, done, total)`.  When
`user_status` is truthy and its `progress` mapping non-empty, take the
`(event_name, value)` pair of maximal `value` over the progress values and
read `total` from `tasks[event_name].target`; otherwise take the
`(event_name, target)` pair of minimal `target` over the task values and
report `done = 0`. -/
def get_progress (quest : Quest) : Option (String × ℤ × ℤ) :=
  match quest.user_status with
  | some us =>
    if us.progress ≠ [] then
      match pyMaxBySnd (us.progress.map (fun p => (p.event_name, p.value))) with
      | none => none
      | some (task_name, done) =>
        (lookupTask quest.config.tasks task_name).map
          (fun t => (task_name, done, t.target))
    else
      match pyMinBySnd (quest.config.tasks.map (fun p => (p.2.event_name, p.2.target))) with
      | none => none
      | some (task_name, total) => some (task_name, 0, total)
  | none =>
    match pyMinBySnd (quest.config.tasks.map (fun p => (p.2.event_name, p.2.target))) with
    | none => none
    | some (task_name, total) => some (task_name, 0, total)

/-- One remote `video-progress` call made by the Watch loop: the tick index
`k` at which it was made, the local `seconds_done` just before the call,
and the `timestamp` value sent (`min(seconds_needed, next_ + random())`). -/
structure WatchCall where
  k : ℕ
  doneBefore : ℤ
  sent : ℚ
deriving DecidableEq, Repr

/-- The observable outcome of a (fuel-bounded) run of the Watch loop. -/
structure WatchResult where
  /-- remote `video-progress` calls, in order -/
  calls : List WatchCall
  /-- the `procCallback(done, total)` emissions, in order -/
  events : List (ℤ × ℤ)
  /-- set to `false` when the fuel ran out before the loop exited -/
  terminated : Bool
  /-- value of the `completed` flag when the loop exited -/
  completedAtExit : Bool
  /-- whether the forced final `heartbeat` at the target value was sent -/
  finalHeartbeat : Bool
  /-- the Python return value -/
  ret : Bool
deriving DecidableEq, Repr

/-- The body of `complete_video_quest`'s `while not completed` loop
(`src/logic/quests.py`), one iteration per 1-second tick.  At tick `k`
the elapsed whole seconds since enrollment are `e0 + k`
(`math.floor(now - enrolled_at)` at loop entry is `e0`); `max_future = 10`,
`speed = 7`.  `jitter k` models the `random.random()` drawn at tick `k`
and `resp k` whether the remote response at tick `k` carries a non-null
`completed_at`.  When the loop exits with `completed` still false, the
forced final heartbeat at `seconds_needed` is sent; either way a final
`procCallback(seconds_needed, seconds_needed)` is emitted and the function
returns `True`. -/
def watchRunAux (target e0 : ℤ) (jitter : ℕ → ℚ) (resp : ℕ → Bool) :
    ℕ → ℤ → ℕ → WatchResult
  | 0, _, _ => ⟨[], [], false, false, false, false⟩
  | fuel + 1, done, k =>
    let max_allowed : ℤ := e0 + (k : ℤ) + 10
    let diffrence : ℤ := max_allowed - done
    let next_ : ℤ := done + 7
    if diffrence ≥ 7 then
      let sent : ℚ := min (target : ℚ) ((next_ : ℚ) + jitter k)
      let completed := resp k
      let done' : ℤ := min target next_
      if completed then
        ⟨[⟨k, done, sent⟩], [(done', target), (target, target)], true, true, false, true⟩
      else if done' ≥ target then
        ⟨[⟨k, done, sent⟩], [(done', target), (target, target)], true, false, true, true⟩
      else
        let r := watchRunAux target e0 jitter resp fuel done' (k + 1)
        ⟨⟨k, done, sent⟩ :: r.calls, (done', target) :: r.events,
          r.terminated, r.completedAtExit, r.finalHeartbeat, r.ret⟩
    else
      if done ≥ target then
        ⟨[], [(done, target), (target, target)], true, false, true, true⟩
      else
        let r := watchRunAux target e0 jitter resp fuel done (k + 1)
        ⟨r.calls, (done, target) :: r.events,
          r.terminated, r.completedAtExit, r.finalHeartbeat, r.ret⟩

/-- Model of `complete_video_quest` (`src/logic/quests.py`, mirrored in
`src/new_main.py`): the loop started at `seconds_done = done0` (from
`get_progress`) with target `seconds_needed = target`, elapsed offset
`e0`, jitter and remote-response oracles, bounded by `fuel` iterations. -/
def complete_video_quest (target done0 e0 : ℤ) (jitter : ℕ → ℚ)
    (resp : ℕ → Bool) (fuel : ℕ) : WatchResult :=
  watchRunAux target e0 jitter resp fuel done0 0

/-- Model of `random.uniform(a, b)` as `a + u * (b - a)` with `u ∈ [0, 1]`, applied
to the interval choice of `complete_play_quest`: range `[30, 45]` when
`progress > seconds_needed * 0.8`, otherwise `[55, 70]`.  The float
literal `0.8` is modelled as the rational `4/5`. -/
def play_interval (progress target : ℤ) (u : ℚ) : ℚ :=
  if (progress : ℚ) > (4 / 5 : ℚ) * (target : ℚ) then 30 + u * (45 - 30)
  else 55 + u * (70 - 55)

/-- The observable outcome of a (fuel-bounded) run of the Play loop. -/
structure PlayResult where
  /-- the `procCallback(progress, total)` emissions, in order -/
  events : List (ℤ × ℤ)
  /-- the sleeps performed: (remote progress at that iteration, interval) -/
  sleeps : List (ℤ × ℚ)
  /-- set to `false` when the fuel ran out before the loop returned -/
  terminated : Bool
  /-- the Python return value -/
  ret : Bool
deriving DecidableEq, Repr

/-- The body of `complete_play_quest`'s `while True` loop
(`src/logic/quests.py`, mirrored in `src/new_main.py`): each iteration
posts a heartbeat, reads the authoritative remote progress (`resp i` for
the i-th heartbeat), emits it, returns `True` once `progress ≥
seconds_needed` (after emitting a final `(target, target)` event), and
otherwise sleeps for `random.uniform(30, 45)` when `progress >
seconds_needed * 0.8` and `random.uniform(55, 70)` otherwise (`u i` is
the uniform draw of the i-th iteration). -/
def playRunAux (target : ℤ) (resp : ℕ → ℤ) (u : ℕ → ℚ) :
    ℕ → ℕ → PlayResult
  | 0, _ => ⟨[], [], false, false⟩
  | fuel + 1, i =>
    let progress := resp i
    if progress ≥ target then
      ⟨[(progress, target), (target, target)], [], true, true⟩
    else
      let r := playRunAux target resp u fuel (i + 1)
      ⟨(progress, target) :: r.events,
        (progress, play_interval progress target (u i)) :: r.sleeps,
        r.terminated, r.ret⟩

/-- Model of `complete_play_quest` (`src/logic/quests.py`): the heartbeat-poll loop
with target `seconds_needed = target`, bounded by `fuel` iterations. -/
def complete_play_quest (target : ℤ) (resp : ℕ → ℤ) (u : ℕ → ℚ)
    (fuel : ℕ) : PlayResult :=
  playRunAux target resp u fuel 0

/-- The inner `while prev_value < done` loop of `process_quest.update`
(`src/new_main.py`): starting from the currently displayed value, step by
1 per tick and post each stepped value (`progress.update(task_id,
completed=prev_value, ...)`); when `done >= total` the loop stops the task
and breaks right after the first step.  The returned list is the sequence
of posted displayed values. -/
def updateLoop (done total : ℤ) : ℕ → ℤ → List ℤ
  | 0, _ => []
  | fuel + 1, prev =>
    if prev < done then
      let p := prev + 1
      if done ≥ total then [p]
      else p :: updateLoop done total fuel p
    else []

/-- Model of `process_quest.update` (`src/new_main.py`): the displayed-value
stepping loop run to completion (each iteration increments `prev_value`
by exactly 1, so `done - prev` iterations suffice as fuel). -/
def update (prev done total : ℤ) : List ℤ :=
  updateLoop done total (done - prev).toNat prev

/-- Modelled from the spec: the ProgressAggregator easing step the spec
describes — `max(1, (target - displayed) / easing_factor)` with easing
factor 8 — which appears in no source file; defined here only to compare
the spec's stepping rule against the code's. -/
def specEasingStep (displayed target : ℤ) : ℤ :=
  max 1 ((target - displayed) / 8)

/-- Holds when `p` is the element of `l` with maximal second component, the first such
in iteration order: `l` splits around `p`, everything before `p` is
strictly smaller, and nothing in `l` is larger. -/
def IsFirstMaxBySnd (l : List (String × ℤ)) (p : String × ℤ) : Prop :=
  ∃ l1 l2, l = l1 ++ p :: l2 ∧ (∀ y ∈ l1, y.2 < p.2) ∧ ∀ y ∈ l, y.2 ≤ p.2

/-- Holds when `p` is the element of `l` with minimal second component, the first such
in iteration order. -/
def IsFirstMinBySnd (l : List (String × ℤ)) (p : String × ℤ) : Prop :=
  ∃ l1 l2, l = l1 ++ p :: l2 ∧ (∀ y ∈ l1, p.2 < y.2) ∧ ∀ y ∈ l, p.2 ≤ y.2

lemma foldlMaxBySnd_spec (xs : List (String × ℤ)) :
    ∀ x, IsFirstMaxBySnd (x :: xs)
      (xs.foldl (fun acc y => if y.2 > acc.2 then y else acc) x) := by
  induction xs with
  | nil =>
    intro x
    exact ⟨[], [], rfl, by simp, by simp⟩
  | cons y ys ih =>
    intro x
    simp only [List.foldl_cons]
    by_cases h : y.2 > x.2
    · rw [if_pos h]
      obtain ⟨l1, l2, hdec, hlt, hle⟩ := ih y
      have hy : y.2 ≤ (ys.foldl (fun acc z => if z.2 > acc.2 then z else acc) y).2 :=
        hle y (List.mem_cons_self y ys)
      refine ⟨x :: l1, l2, by rw [List.cons_append, ← hdec], ?_, ?_⟩
      · intro z hz
        rcases List.mem_cons.mp hz with rfl | hz
        · omega
        · exact hlt z hz
      · intro z hz
        rcases List.mem_cons.mp hz with rfl | hz
        · omega
        · exact hle z hz
    · rw [if_neg h]
      push_neg at h
      obtain ⟨l1, l2, hdec, hlt, hle⟩ := ih x
      have hglobal : ∀ z ∈ x :: y :: ys,
          z.2 ≤ (ys.foldl (fun acc w => if w.2 > acc.2 then w else acc) x).2 := by
        intro z hz
        rcases List.mem_cons.mp hz with rfl | hz
        · exact hle z (List.mem_cons_self z ys)
        · rcases List.mem_cons.mp hz with rfl | hz
          · exact le_trans h (hle x (List.mem_cons_self x ys))
          · exact hle z (List.mem_cons_of_mem x hz)
      cases l1 with
      | nil =>
        simp only [List.nil_append, List.cons.injEq] at hdec
        refine ⟨[], y :: l2, ?_, by simp, hglobal⟩
        rw [List.nil_append, ← hdec.1, hdec.2]
      | cons a l1t =>
        simp only [List.cons_append, List.cons.injEq] at hdec
        have hxlt : x.2 < (ys.foldl (fun acc w => if w.2 > acc.2 then w else acc) x).2 :=
          hdec.1 ▸ hlt a (List.mem_cons_self a l1t)
        refine ⟨x :: y :: l1t, l2, by rw [List.cons_append, List.cons_append, ← hdec.2], ?_, hglobal⟩
        intro z hz
        rcases List.mem_cons.mp hz with rfl | hz
        · exact hxlt
        · rcases List.mem_cons.mp hz with rfl | hz
          · omega
          · exact hlt z (List.mem_cons_of_mem a hz)

lemma foldlMinBySnd_spec (xs : List (String × ℤ)) :
    ∀ x, IsFirstMinBySnd (x :: xs)
      (xs.foldl (fun acc y => if y.2 < acc.2 then y else acc) x) := by
  induction xs with
  | nil =>
    intro x
    exact ⟨[], [], rfl, by simp, by simp⟩
  | cons y ys ih =>
    intro x
    simp only [List.foldl_cons]
    by_cases h : y.2 < x.2
    · rw [if_pos h]
      obtain ⟨l1, l2, hdec, hlt, hle⟩ := ih y
      have hy : (ys.foldl (fun acc z => if z.2 < acc.2 then z else acc) y).2 ≤ y.2 :=
        hle y (List.mem_cons_self y ys)
      refine ⟨x :: l1, l2, by rw [List.cons_append, ← hdec], ?_, ?_⟩
      · intro z hz
        rcases List.mem_cons.mp hz with rfl | hz
        · omega
        · exact hlt z hz
      · intro z hz
        rcases List.mem_cons.mp hz with rfl | hz
        · omega
        · exact hle z hz
    · rw [if_neg h]
      push_neg at h
      obtain ⟨l1, l2, hdec, hlt, hle⟩ := ih x
      have hglobal : ∀ z ∈ x :: y :: ys,
          (ys.foldl (fun acc w => if w.2 < acc.2 then w else acc) x).2 ≤ z.2 := by
        intro z hz
        rcases List.mem_cons.mp hz with rfl | hz
        · exact hle z (List.mem_cons_self z ys)
        · rcases List.mem_cons.mp hz with rfl | hz
          · exact le_trans (hle x (List.mem_cons_self x ys)) h
          · exact hle z (List.mem_cons_of_mem x hz)
      cases l1 with
      | nil =>
        simp only [List.nil_append, List.cons.injEq] at hdec
        refine ⟨[], y :: l2, ?_, by simp, hglobal⟩
        rw [List.nil_append, ← hdec.1, hdec.2]
      | cons a l1t =>
        simp only [List.cons_append, List.cons.injEq] at hdec
        have hxlt : (ys.foldl (fun acc w => if w.2 < acc.2 then w else acc) x).2 < x.2 :=
          hdec.1 ▸ hlt a (List.mem_cons_self a l1t)
        refine ⟨x :: y :: l1t, l2, by rw [List.cons_append, List.cons_append, ← hdec.2], ?_, hglobal⟩
        intro z hz
        rcases List.mem_cons.mp hz with rfl | hz
        · exact hxlt
        · rcases List.mem_cons.mp hz with rfl | hz
          · omega
          · exact hlt z (List.mem_cons_of_mem a hz)

lemma pyMaxBySnd_spec (l : List (String × ℤ)) (p : String × ℤ)
    (h : pyMaxBySnd l = some p) : IsFirstMaxBySnd l p := by
  cases l with
  | nil => simp [pyMaxBySnd] at h
  | cons x xs =>
    simp only [pyMaxBySnd, Option.some.injEq] at h
    exact h ▸ foldlMaxBySnd_spec xs x

lemma pyMinBySnd_spec (l : List (String × ℤ)) (p : String × ℤ)
    (h : pyMinBySnd l = some p) : IsFirstMinBySnd l p := by
  cases l with
  | nil => simp [pyMinBySnd] at h
  | cons x xs =>
    simp only [pyMinBySnd, Option.some.injEq] at h
    exact h ▸ foldlMinBySnd_spec xs x

/-- C2:  for every quest whose `userStatus.progress` is non-empty,
`get_progress` / `get_quest_progress` returns the progress entry with the
globally maximum recorded value (on ties, the first encountered in
iteration order) and `total` equal to that task's configured target (read
from `tasks[event_name]`, whenever that lookup succeeds); for every quest
whose `userStatus.progress` is empty or whose `userStatus` is absent, it
returns `done = 0` and `total` equal to the minimum target across all
tasks. -/
theorem get_progress_selection (q : Quest) :
    (∀ us, q.user_status = some us → us.progress ≠ [] →
      ∃ en v, IsFirstMaxBySnd (us.progress.map (fun p => (p.event_name, p.value))) (en, v) ∧
        ∀ t, lookupTask q.config.tasks en = some t →
          get_progress q = some (en, v, t.target)) ∧
    ((q.user_status = none ∨ ∃ us, q.user_status = some us ∧ us.progress = []) →
      q.config.tasks ≠ [] →
      ∃ en tot, get_progress q = some (en, 0, tot) ∧
        tot ∈ q.config.tasks.map (fun p => p.2.target) ∧
        ∀ t ∈ q.config.tasks.map (fun p => p.2.target), tot ≤ t) := by
  constructor
  · intro us hus hne
    have hmapne : us.progress.map (fun p => (p.event_name, p.value)) ≠ [] := by
      simpa using hne
    obtain ⟨x, xs, hx⟩ := List.exists_cons_of_ne_nil hmapne
    set r := xs.foldl (fun acc y => if y.2 > acc.2 then y else acc) x with hr
    have hsome : pyMaxBySnd (us.progress.map (fun p => (p.event_name, p.value))) = some r := by
      rw [hx]; rfl
    refine ⟨r.1, r.2, ?_, ?_⟩
    · have := pyMaxBySnd_spec _ r hsome
      simpa using this
    · intro t ht
      simp only [get_progress, hus, if_pos hne, hsome, ht, Option.map_some]
      rfl
  · intro hcase htne
    have hmapne : q.config.tasks.map (fun p => (p.2.event_name, p.2.target)) ≠ [] := by
      simpa using htne
    obtain ⟨x, xs, hx⟩ := List.exists_cons_of_ne_nil hmapne
    set r := xs.foldl (fun acc y => if y.2 < acc.2 then y else acc) x with hr
    have hsome : pyMinBySnd (q.config.tasks.map (fun p => (p.2.event_name, p.2.target))) = some r := by
      rw [hx]; rfl
    obtain ⟨l1, l2, hdec, hlt, hle⟩ := pyMinBySnd_spec _ r hsome
    have hmem : r ∈ q.config.tasks.map (fun p => (p.2.event_name, p.2.target)) := by
      rw [hdec]; exact List.mem_append_right l1 (List.mem_cons_self r l2)
    have hmemtgt : r.2 ∈ q.config.tasks.map (fun p => p.2.target) := by
      obtain ⟨p, hp, hpr⟩ := List.mem_map.mp hmem
      exact List.mem_map.mpr ⟨p, hp, by rw [← hpr]⟩
    have hmin : ∀ t ∈ q.config.tasks.map (fun p => p.2.target), r.2 ≤ t := by
      intro t htm
      obtain ⟨p, hp, hpt⟩ := List.mem_map.mp htm
      exact hpt ▸ hle (p.2.event_name, p.2.target) (List.mem_map.mpr ⟨p, hp, rfl⟩)
    refine ⟨r.1, r.2, ?_, hmemtgt, hmin⟩
    rcases hcase with hnone | ⟨us, hus, hemp⟩
    · simp only [get_progress, hnone, hsome]
    · simp only [get_progress, hus, hemp, ite_not, if_pos rfl, hsome, if_true]

/-- Sample quest for the C2 witness: enrolled, two progress entries with
the maximum value (25) on the second task, two tasks with targets 300 and
200. -/
def sampleProgressQuest : Quest :=
  ⟨10,
    ⟨1000, none, [],
      [("WATCH_VIDEO", ⟨"WATCH_VIDEO", 300⟩), ("WATCH_VIDEO_ON_MOBILE", ⟨"WATCH_VIDEO_ON_MOBILE", 200⟩)]⟩,
    some ⟨some 5, none, none,
      [⟨"WATCH_VIDEO", 12⟩, ⟨"WATCH_VIDEO_ON_MOBILE", 25⟩]⟩⟩

/-- Sample quest for the C2 witness, not yet started: no `user_status`. -/
def sampleFreshQuest : Quest :=
  ⟨11,
    ⟨1000, none, [],
      [("WATCH_VIDEO", ⟨"WATCH_VIDEO", 300⟩), ("WATCH_VIDEO_ON_MOBILE", ⟨"WATCH_VIDEO_ON_MOBILE", 200⟩)]⟩,
    none⟩

/-- Witness for C2: instantiates `get_progress_selection` on concrete
quests, discharging each hypothesis. -/
theorem get_progress_selection_witness :
    (∃ en v, IsFirstMaxBySnd
        [("WATCH_VIDEO", (12 : ℤ)), ("WATCH_VIDEO_ON_MOBILE", 25)] (en, v) ∧
      ∀ t, lookupTask sampleProgressQuest.config.tasks en = some t →
        get_progress sampleProgressQuest = some (en, v, t.target)) ∧
    (∃ en tot, get_progress sampleFreshQuest = some (en, 0, tot) ∧
      tot ∈ sampleFreshQuest.config.tasks.map (fun p => p.2.target) ∧
      ∀ t ∈ sampleFreshQuest.config.tasks.map (fun p => p.2.target), tot ≤ t) := by
  constructor
  · have h := (get_progress_selection sampleProgressQuest).1
      ⟨some 5, none, none, [⟨"WATCH_VIDEO", 12⟩, ⟨"WATCH_VIDEO_ON_MOBILE", 25⟩]⟩
      rfl (by decide)
    simpa using h
  · exact (get_progress_selection sampleFreshQuest).2 (Or.inl rfl) (by decide)

/-- C4 (amended):  the `src/logic/objects.py` `Filters.Claimable` holds
exactly when the quest has `completedAt` set, no `claimedAt`, a
rewards-expiry timestamp present and not yet passed, and the quest is not
expired; the `src/logic/quests.py` variant checks the same conditions
except that it does not require `claimedAt` to be absent. -/
theorem claimable_characterization (now : ℤ) (q : Quest) :
    (LogicObjects.Claimable now q = true ↔
      ∃ us, q.user_status = some us ∧
        us.completed_at.isSome = true ∧
        us.claimed_at = none ∧
        (∃ rea, q.config.rewards_expire_at = some rea ∧ in_past now rea = false) ∧
        in_past now q.config.expires_at = false) ∧
    (LogicQuests.Claimable now q = true ↔
      ∃ us, q.user_status = some us ∧
        us.completed_at.isSome = true ∧
        (∃ rea, q.config.rewards_expire_at = some rea ∧ in_past now rea = false) ∧
        in_past now q.config.expires_at = false) := by
  constructor
  · constructor
    · intro h
      match hus : q.user_status with
      | none => rw [LogicObjects.Claimable, hus] at h; exact absurd h (by simp)
      | some us =>
        rw [LogicObjects.Claimable, hus] at h
        simp only [Bool.and_eq_true, Bool.not_eq_true'] at h
        match hrea : q.config.rewards_expire_at with
        | none => rw [hrea] at h; exact absurd h.2 (by simp)
        | some rea =>
          rw [hrea] at h
          refine ⟨us, rfl, h.1.1.2, ?_, ⟨rea, rfl, ?_⟩, h.1.1.1⟩
          · exact Option.isNone_iff_eq_none.mp h.1.2
          · simpa using h.2
    · rintro ⟨us, hus, hcomp, hclaim, ⟨rea, hrea, hreapast⟩, hexp⟩
      rw [LogicObjects.Claimable, hus, hrea]
      simp [hcomp, hclaim, hreapast, hexp]
  · constructor
    · intro h
      match hus : q.user_status with
      | none => rw [LogicQuests.Claimable, hus] at h; exact absurd h (by simp)
      | some us =>
        rw [LogicQuests.Claimable, hus] at h
        simp only [Bool.and_eq_true, Bool.not_eq_true'] at h
        match hrea : q.config.rewards_expire_at with
        | none => rw [hrea] at h; exact absurd h.2 (by simp)
        | some rea =>
          rw [hrea] at h
          exact ⟨us, rfl, h.1.2, ⟨rea, rfl, by simpa using h.2⟩, h.1.1⟩
    · rintro ⟨us, hus, hcomp, ⟨rea, hrea, hreapast⟩, hexp⟩
      rw [LogicQuests.Claimable, hus, hrea]
      simp [hcomp, hreapast, hexp]

/-- A quest that is completed, not expired, with live rewards expiry — and
whose reward has **already been claimed** (`claimed_at` set). -/
def alreadyClaimedQuest : Quest :=
  ⟨20, ⟨1000, some 900, [], [("WATCH_VIDEO", ⟨"WATCH_VIDEO", 300⟩)]⟩,
    some ⟨some 5, some 50, some 60, []⟩⟩

/-- Counterexample for C4: the `src/logic/quests.py` `Filters.Claimable`
accepts a quest whose `claimed_at` is set, so "has no claimedAt" is not
part of that predicate. -/
theorem claimable_claimed_accepted :
    LogicQuests.Claimable 0 alreadyClaimedQuest = true ∧
    (alreadyClaimedQuest.user_status.bind UserStatus.claimed_at).isSome = true ∧
    LogicObjects.Claimable 0 alreadyClaimedQuest = false := by
  exact ⟨by decide, by decide, by decide⟩

/-- Witness for C4: instantiates `claimable_characterization` on a concrete
quest with no `claimed_at`, where both predicates agree. -/
theorem claimable_characterization_witness :
    LogicObjects.Claimable 0
      ⟨21, ⟨1000, some 900, [], [("WATCH_VIDEO", ⟨"WATCH_VIDEO", 300⟩)]⟩,
        some ⟨some 5, some 50, none, []⟩⟩ = true := by
  exact (claimable_characterization 0 _).1.mpr
    ⟨⟨some 5, some 50, none, []⟩, rfl, rfl, rfl, ⟨900, rfl, rfl⟩, rfl⟩

/-- A quest whose task-name set is empty. -/
def emptyTasksQuest : Quest := ⟨30, ⟨1000, none, [], []⟩, none⟩

/-- C5 (amended):  on a quest with an empty task-name set,
`QuestType.from_quest` (`src/logic/objects.py`) returns `Unknown` (its
`IndexError` is caught), but `determine_quest_type`
(`src/logic/quests.py`) raises an uncaught `IndexError` (modelled `none`)
instead of returning `Unknown`. -/
theorem classify_empty_tasks (q : Quest) (h : q.config.tasks = []) :
    QuestType.from_quest q = QuestType.Unknown ∧
    determine_quest_type q = none := by
  constructor
  · rw [QuestType.from_quest, h]
    rfl
  · rw [determine_quest_type, h]
    rfl

/-- Counterexample for C5: `determine_quest_type` on the empty task-name
set does not return `Unknown` — it fails (raises `IndexError`, modelled as
`none`). -/
theorem classify_empty_tasks_fails :
    determine_quest_type emptyTasksQuest ≠ some QuestType.Unknown ∧
    determine_quest_type emptyTasksQuest = none := by
  exact ⟨by decide, by decide⟩

/-- Witness for C5: instantiates `classify_empty_tasks` on the concrete
empty-task quest. -/
theorem classify_empty_tasks_witness :
    QuestType.from_quest emptyTasksQuest = QuestType.Unknown ∧
    determine_quest_type emptyTasksQuest = none :=
  classify_empty_tasks emptyTasksQuest rfl

/-- C7:  both classifiers return `Activiy` whenever any task name
case-insensitively equals `play_activity`, regardless of which other task
names are present: the special case takes precedence over the
first-task-name first-segment mapping. -/
theorem classify_play_activity (q : Quest)
    (h : ∃ n ∈ q.config.tasks.map (fun p => p.1), pyToLower n = "play_activity") :
    determine_quest_type q = some QuestType.Activiy ∧
    QuestType.from_quest q = QuestType.Activiy := by
  obtain ⟨n, hn, hlow⟩ := h
  have hany : (q.config.tasks.map (fun p => p.1)).any
      (fun m => pyToLower m == "play_activity") = true :=
    List.any_eq_true.mpr ⟨n, hn, by simp [hlow]⟩
  constructor
  · rw [determine_quest_type, determineQuestTypeNames, if_pos hany]
  · rw [QuestType.from_quest, QuestType.fromTaskNames, if_pos hany]

/-- A quest containing both a `PLAY_ACTIVITY` and a `WATCH_VIDEO` task
entry, the watch entry first. -/
def playActivityQuest : Quest :=
  ⟨40, ⟨1000, none, [],
    [("WATCH_VIDEO", ⟨"WATCH_VIDEO", 300⟩), ("PLAY_ACTIVITY", ⟨"PLAY_ACTIVITY", 600⟩)]⟩, none⟩

/-- Witness for C7: a quest with both `WATCH_VIDEO` (first) and
`PLAY_ACTIVITY` task entries classifies as `Activiy` under both
classifiers. -/
theorem classify_play_activity_witness :
    determine_quest_type playActivityQuest = some QuestType.Activiy ∧
    QuestType.from_quest playActivityQuest = QuestType.Activiy :=
  classify_play_activity playActivityQuest ⟨"PLAY_ACTIVITY", by decide, by decide⟩

lemma watchRunAux_exit (target e0 : ℤ) (jitter : ℕ → ℚ) (resp : ℕ → Bool) :
    ∀ (fuel : ℕ) (done : ℤ) (k : ℕ),
      (watchRunAux target e0 jitter resp fuel done k).terminated = true →
      (watchRunAux target e0 jitter resp fuel done k).finalHeartbeat
          = !(watchRunAux target e0 jitter resp fuel done k).completedAtExit ∧
      ((watchRunAux target e0 jitter resp fuel done k).completedAtExit = true →
        ∃ c ∈ (watchRunAux target e0 jitter resp fuel done k).calls, resp c.k = true) := by
  intro fuel
  induction fuel with
  | zero =>
    intro done k h
    simp [watchRunAux] at h
  | succ n ih =>
    intro done k h
    simp only [watchRunAux] at h ⊢
    split_ifs at h ⊢ with h1 h2 h3 h4
    · exact ⟨rfl, fun _ => ⟨⟨k, done, min (target : ℚ) ((done + 7 : ℤ) + jitter k)⟩,
        List.mem_singleton.mpr rfl, h2⟩⟩
    · exact ⟨rfl, by simp⟩
    · refine ⟨(ih _ _ h).1, fun hc => ?_⟩
      obtain ⟨c, hcm, hcr⟩ := (ih _ _ h).2 hc
      exact ⟨c, List.mem_cons_of_mem _ hcm, hcr⟩
    · exact ⟨rfl, by simp⟩
    · exact ih _ _ h

/-- C1 (amended):  the remote `completed_at` is not the sole
termination signal of the Watch loop: the loop also exits when the locally
tracked `seconds_done` reaches `seconds_needed`; `completed_at` is the
sole signal that sets the `completed` flag, and the forced final heartbeat
at the target is sent exactly when the loop exited with that flag still
false (`completed` can only have been set by a response whose
`completed_at` was non-null). -/
theorem watch_loop_exit (target done0 e0 : ℤ) (jitter : ℕ → ℚ) (resp : ℕ → Bool)
    (fuel : ℕ)
    (h : (complete_video_quest target done0 e0 jitter resp fuel).terminated = true) :
    (complete_video_quest target done0 e0 jitter resp fuel).finalHeartbeat
        = !(complete_video_quest target done0 e0 jitter resp fuel).completedAtExit ∧
    ((complete_video_quest target done0 e0 jitter resp fuel).completedAtExit = true →
      ∃ c ∈ (complete_video_quest target done0 e0 jitter resp fuel).calls,
        resp c.k = true) :=
  watchRunAux_exit target e0 jitter resp fuel done0 0 h

/-- Witness for C1: a concrete terminating Watch run (target 14, enrolled
just now, remote never confirms) to which `watch_loop_exit` applies. -/
theorem watch_loop_exit_witness :
    (complete_video_quest 14 0 0 (fun _ => 0) (fun _ => false) 5).terminated = true ∧
    (complete_video_quest 14 0 0 (fun _ => 0) (fun _ => false) 5).finalHeartbeat
        = !(complete_video_quest 14 0 0 (fun _ => 0) (fun _ => false) 5).completedAtExit :=
  ⟨by decide, (watch_loop_exit 14 0 0 (fun _ => 0) (fun _ => false) 5 (by decide)).1⟩

/-- Counterexample for C1: a Watch run in which no remote response ever
carries a non-null `completed_at` (`resp` is constantly `false`), yet the
loop terminates — because local `done` reached the target — and the
forced final heartbeat is sent. -/
theorem watch_loop_exit_without_confirmation :
    (complete_video_quest 7 0 0 (fun _ => 0) (fun _ => false) 1).terminated = true ∧
    (complete_video_quest 7 0 0 (fun _ => 0) (fun _ => false) 1).completedAtExit = false ∧
    (complete_video_quest 7 0 0 (fun _ => 0) (fun _ => false) 1).finalHeartbeat = true := by
  exact ⟨by decide, by decide, by decide⟩

lemma watch_sent_lt (e0 done target : ℤ) (k : ℕ) (j : ℚ)
    (hj : j < 1) (h1 : e0 + (k : ℤ) + 10 - done ≥ 7) :
    min (target : ℚ) (((done + 7 : ℤ) : ℚ) + j) < (e0 : ℚ) + (k : ℚ) + 10 + 1 := by
  have hz : (done + 7 : ℤ) ≤ e0 + (k : ℤ) + 10 := by omega
  have hb : ((done + 7 : ℤ) : ℚ) ≤ (e0 : ℚ) + (k : ℚ) + 10 := by exact_mod_cast hz
  calc min (target : ℚ) (((done + 7 : ℤ) : ℚ) + j)
      ≤ ((done + 7 : ℤ) : ℚ) + j := min_le_right _ _
    _ < (e0 : ℚ) + (k : ℚ) + 10 + 1 := by linarith

lemma watchRunAux_call_bounds (target e0 : ℤ) (jitter : ℕ → ℚ) (resp : ℕ → Bool)
    (hj : ∀ i, 0 ≤ jitter i ∧ jitter i < 1) :
    ∀ (fuel : ℕ) (done : ℤ) (k : ℕ),
      ∀ c ∈ (watchRunAux target e0 jitter resp fuel done k).calls,
        e0 + (c.k : ℤ) + 10 - c.doneBefore ≥ 7 ∧
        c.sent ≤ (target : ℚ) ∧
        c.sent < (e0 : ℚ) + (c.k : ℚ) + 10 + 1 := by
  intro fuel
  induction fuel with
  | zero =>
    intro done k c hc
    simp [watchRunAux] at hc
  | succ n ih =>
    intro done k c hc
    simp only [watchRunAux] at hc
    split_ifs at hc with h1 h2 h3
    · rw [List.mem_singleton] at hc
      subst hc
      exact ⟨h1, min_le_left _ _, watch_sent_lt e0 done target k _ (hj k).2 h1⟩
    · rw [List.mem_singleton] at hc
      subst hc
      exact ⟨h1, min_le_left _ _, watch_sent_lt e0 done target k _ (hj k).2 h1⟩
    · rcases List.mem_cons.mp hc with rfl | hc
      · exact ⟨h1, min_le_left _ _, watch_sent_lt e0 done target k _ (hj k).2 h1⟩
      · exact ih _ _ c hc
    · simp at hc
    · exact ih _ _ c hc

/-- C3 (amended):  with `step = 7` and `slack = 10`, a remote progress
call is made in a tick only when `max_allowed - done ≥ step`, and the
value sent never exceeds the target and never reaches
`elapsed_seconds + slack + 1`: it can exceed `min(target,
elapsed_seconds + slack)` by the random fractional jitter, which is
strictly less than one second. -/
theorem watch_call_bounds (target done0 e0 : ℤ) (jitter : ℕ → ℚ) (resp : ℕ → Bool)
    (fuel : ℕ) (hj : ∀ i, 0 ≤ jitter i ∧ jitter i < 1) :
    ∀ c ∈ (complete_video_quest target done0 e0 jitter resp fuel).calls,
      e0 + (c.k : ℤ) + 10 - c.doneBefore ≥ 7 ∧
      c.sent ≤ (target : ℚ) ∧
      c.sent < (e0 : ℚ) + (c.k : ℚ) + 10 + 1 :=
  watchRunAux_call_bounds target e0 jitter resp hj fuel done0 0

/-- Witness for C3: instantiates `watch_call_bounds` on the first call of
a concrete run. -/
theorem watch_call_bounds_witness :
    (⟨0, 0, (15 : ℚ)/2⟩ ∈
      (complete_video_quest 100 0 0 (fun _ => (1 : ℚ)/2) (fun _ => false) 5).calls) ∧
    ((⟨0, 0, (15 : ℚ)/2⟩ : WatchCall).sent ≤ ((100 : ℤ) : ℚ) ∧
      (⟨0, 0, (15 : ℚ)/2⟩ : WatchCall).sent
        < ((0 : ℤ) : ℚ) + (((0 : ℕ) : ℚ)) + 10 + 1) := by
  have hmem : (⟨0, 0, (15 : ℚ)/2⟩ : WatchCall) ∈
      (complete_video_quest 100 0 0 (fun _ => (1 : ℚ)/2) (fun _ => false) 5).calls := by
    norm_num [complete_video_quest, watchRunAux, min_def]
  have h := watch_call_bounds 100 0 0 (fun _ => (1 : ℚ)/2) (fun _ => false) 5
    (fun i => by norm_num) ⟨0, 0, (15 : ℚ)/2⟩ hmem
  exact ⟨hmem, h.2.1, h.2.2⟩

/-- Counterexample for C3: in the straightforward run started at
enrollment with jitter 1/2, the second remote call (tick 4, elapsed 4
seconds) sends `14.5`, which exceeds
`min(target, elapsed_seconds + slack) = min(100, 4 + 10) = 14`: the claim
that the sent value never exceeds that bound is false. -/
theorem watch_call_exceeds_slack :
    (complete_video_quest 100 0 0 (fun _ => (1 : ℚ)/2) (fun _ => false) 5).calls.get? 1
        = some ⟨4, 7, (29 : ℚ)/2⟩ ∧
    ¬ ((29 : ℚ)/2 ≤ min (100 : ℚ) ((4 : ℚ) + 10)) := by
  constructor
  · norm_num [complete_video_quest, watchRunAux, min_def]
  · norm_num [min_def]

lemma watchRunAux_events_mono (target e0 : ℤ) (jitter : ℕ → ℚ) (resp : ℕ → Bool) :
    ∀ (fuel : ℕ) (done : ℤ) (k : ℕ), done ≤ target →
      List.Chain' (fun a b : ℤ × ℤ => a.1 ≤ b.1)
        ((watchRunAux target e0 jitter resp fuel done k).events) ∧
      (∀ p ∈ ((watchRunAux target e0 jitter resp fuel done k).events).head?,
        done ≤ p.1) := by
  intro fuel
  induction fuel with
  | zero =>
    intro done k _
    exact ⟨List.chain'_nil, by simp [watchRunAux]⟩
  | succ n ih =>
    intro done k hdt
    simp only [watchRunAux]
    split_ifs with h1 h2 h3 h4
    · constructor
      · refine List.chain'_cons.mpr ⟨min_le_left _ _, List.chain'_singleton _⟩
      · intro p hp
        rw [List.head?_cons, Option.mem_some_iff] at hp
        subst hp
        exact le_min hdt (by omega)
    · constructor
      · exact List.chain'_cons.mpr ⟨min_le_left _ _, List.chain'_singleton _⟩
      · intro p hp
        rw [List.head?_cons, Option.mem_some_iff] at hp
        subst hp
        exact le_min hdt (by omega)
    · have hd' : min target (done + 7) ≤ target := min_le_left _ _
      obtain ⟨hchain, hhead⟩ := ih (min target (done + 7)) (k + 1) hd'
      constructor
      · exact List.chain'_cons'.mpr ⟨hhead, hchain⟩
      · intro p hp
        rw [List.head?_cons, Option.mem_some_iff] at hp
        subst hp
        exact le_min hdt (by omega)
    · constructor
      · exact List.chain'_cons.mpr ⟨hdt, List.chain'_singleton _⟩
      · intro p hp
        rw [List.head?_cons, Option.mem_some_iff] at hp
        subst hp
        exact le_refl _
    · obtain ⟨hchain, hhead⟩ := ih done (k + 1) hdt
      constructor
      · exact List.chain'_cons'.mpr ⟨hhead, hchain⟩
      · intro p hp
        rw [List.head?_cons, Option.mem_some_iff] at hp
        subst hp
        exact le_refl _

/-- C9 (amended):  within one Watch quest's protocol loop the sequence
of emitted `(done, total)` progress events is monotonically
**non-decreasing** in `done` (provided the starting `done` does not
already exceed the target) — not strictly increasing: ticks in which no
remote call is allowed re-emit the unchanged `done`, and the final forced
callback repeats the target. -/
theorem watch_events_monotone (target done0 e0 : ℤ) (jitter : ℕ → ℚ)
    (resp : ℕ → Bool) (fuel : ℕ) (h : done0 ≤ target) :
    List.Chain' (fun a b : ℤ × ℤ => a.1 ≤ b.1)
      ((complete_video_quest target done0 e0 jitter resp fuel).events) :=
  (watchRunAux_events_mono target e0 jitter resp fuel done0 0 h).1

/-- Witness for C9: instantiates `watch_events_monotone` on a concrete
run. -/
theorem watch_events_monotone_witness :
    (0 : ℤ) ≤ 14 ∧
    List.Chain' (fun a b : ℤ × ℤ => a.1 ≤ b.1)
      ((complete_video_quest 14 0 0 (fun _ => 0) (fun _ => false) 5).events) :=
  ⟨by norm_num,
    watch_events_monotone 14 0 0 (fun _ => 0) (fun _ => false) 5 (by norm_num)⟩

/-- Counterexample for C9: a terminating Watch run whose first two emitted
events both carry `done = 7` (the tick after the first call makes no
remote call, since simulated time would outrun real time, yet still emits
a progress event): consecutive events are not strictly increasing. -/
theorem watch_events_repeat :
    (complete_video_quest 14 0 0 (fun _ => 0) (fun _ => false) 5).terminated = true ∧
    (complete_video_quest 14 0 0 (fun _ => 0) (fun _ => false) 5).events.get? 0
        = some (7, 14) ∧
    (complete_video_quest 14 0 0 (fun _ => 0) (fun _ => false) 5).events.get? 1
        = some (7, 14) := by
  refine ⟨by decide, ?_, ?_⟩ <;> norm_num [complete_video_quest, watchRunAux, min_def]

lemma watchRunAux_ret (target e0 : ℤ) (jitter : ℕ → ℚ) (resp : ℕ → Bool) :
    ∀ (fuel : ℕ) (done : ℤ) (k : ℕ),
      (watchRunAux target e0 jitter resp fuel done k).terminated = true →
      (watchRunAux target e0 jitter resp fuel done k).ret = true := by
  intro fuel
  induction fuel with
  | zero =>
    intro done k h
    simp [watchRunAux] at h
  | succ n ih =>
    intro done k h
    simp only [watchRunAux] at h ⊢
    split_ifs at h ⊢
    · rfl
    · rfl
    · exact ih _ _ h
    · rfl
    · exact ih _ _ h

/-- C10:  `complete_video_quest` returns `True` on every terminating
execution — including runs in which the remote service never confirmed
completion and only the forced final heartbeat at the target value was
sent — so the dispatcher never sees a failure result for a Watch
quest. -/
theorem watch_returns_true (target done0 e0 : ℤ) (jitter : ℕ → ℚ)
    (resp : ℕ → Bool) (fuel : ℕ)
    (h : (complete_video_quest target done0 e0 jitter resp fuel).terminated = true) :
    (complete_video_quest target done0 e0 jitter resp fuel).ret = true :=
  watchRunAux_ret target e0 jitter resp fuel done0 0 h

/-- Witness for C10: a concrete terminating run (enrolled 3 seconds ago,
remote never confirms) on which `watch_returns_true` applies. -/
theorem watch_returns_true_witness :
    (complete_video_quest 7 0 3 (fun _ => 0) (fun _ => false) 1).terminated = true ∧
    (complete_video_quest 7 0 3 (fun _ => 0) (fun _ => false) 1).ret = true :=
  ⟨by decide, watch_returns_true 7 0 3 (fun _ => 0) (fun _ => false) 1 (by decide)⟩

lemma playRunAux_sleep_ranges (target : ℤ) (resp : ℕ → ℤ) (u : ℕ → ℚ)
    (hu : ∀ i, 0 ≤ u i ∧ u i ≤ 1) :
    ∀ (fuel : ℕ) (i : ℕ),
      ∀ s ∈ (playRunAux target resp u fuel i).sleeps,
        ((s.1 : ℚ) > (4 / 5 : ℚ) * (target : ℚ) → 30 ≤ s.2 ∧ s.2 ≤ 45) ∧
        ((s.1 : ℚ) ≤ (4 / 5 : ℚ) * (target : ℚ) → 55 ≤ s.2 ∧ s.2 ≤ 70) := by
  intro fuel
  induction fuel with
  | zero =>
    intro i s hs
    simp [playRunAux] at hs
  | succ n ih =>
    intro i s hs
    simp only [playRunAux] at hs
    split_ifs at hs with h1
    · simp at hs
    · rcases List.mem_cons.mp hs with rfl | hs
      · constructor
        · intro hgt
          rw [play_interval, if_pos hgt]
          have := hu i
          dsimp only
          constructor <;> nlinarith
        · intro hle
          rw [play_interval, if_neg (not_lt.mpr hle)]
          have := hu i
          dsimp only
          constructor <;> nlinarith
      · exact ih _ s hs

/-- C6:  in every iteration of the Play-protocol loop that sleeps
before the next heartbeat, the interval is drawn uniformly from [30, 45]
seconds when the remote-reported progress exceeds `0.8 * target`
(strictly), and from [55, 70] seconds when it is at or below that
threshold (`u` is the uniform [0, 1] draw of `random.uniform`). -/
theorem play_sleep_ranges (target : ℤ) (resp : ℕ → ℤ) (u : ℕ → ℚ) (fuel : ℕ)
    (hu : ∀ i, 0 ≤ u i ∧ u i ≤ 1) :
    ∀ s ∈ (complete_play_quest target resp u fuel).sleeps,
      ((s.1 : ℚ) > (4 / 5 : ℚ) * (target : ℚ) → 30 ≤ s.2 ∧ s.2 ≤ 45) ∧
      ((s.1 : ℚ) ≤ (4 / 5 : ℚ) * (target : ℚ) → 55 ≤ s.2 ∧ s.2 ≤ 70) :=
  playRunAux_sleep_ranges target resp u hu fuel 0

/-- Witness for C6: a Play run with target 60 where the heartbeat at
progress 50 (> 48 = 0.8·60) sleeps 37.5 s ∈ [30, 45] and the heartbeat at
progress 40 (≤ 48) sleeps 62.5 s ∈ [55, 70]. -/
theorem play_sleep_ranges_witness :
    ((50, (75 : ℚ)/2) ∈
      (complete_play_quest 60 (fun i => 10 * (i : ℤ)) (fun _ => (1 : ℚ)/2) 9).sleeps) ∧
    (30 ≤ ((50, (75 : ℚ)/2) : ℤ × ℚ).2 ∧ ((50, (75 : ℚ)/2) : ℤ × ℚ).2 ≤ 45) ∧
    ((40, (125 : ℚ)/2) ∈
      (complete_play_quest 60 (fun i => 10 * (i : ℤ)) (fun _ => (1 : ℚ)/2) 9).sleeps) ∧
    (55 ≤ ((40, (125 : ℚ)/2) : ℤ × ℚ).2 ∧ ((40, (125 : ℚ)/2) : ℤ × ℚ).2 ≤ 70) := by
  have hu : ∀ i : ℕ, 0 ≤ ((fun _ => (1 : ℚ)/2) i) ∧ ((fun _ => (1 : ℚ)/2) i) ≤ 1 := by
    intro i
    norm_num
  have hm1 : ((50, (75 : ℚ)/2) : ℤ × ℚ) ∈
      (complete_play_quest 60 (fun i => 10 * (i : ℤ)) (fun _ => (1 : ℚ)/2) 9).sleeps := by
    norm_num [complete_play_quest, playRunAux, play_interval]
  have hm2 : ((40, (125 : ℚ)/2) : ℤ × ℚ) ∈
      (complete_play_quest 60 (fun i => 10 * (i : ℤ)) (fun _ => (1 : ℚ)/2) 9).sleeps := by
    norm_num [complete_play_quest, playRunAux, play_interval]
  refine ⟨hm1, ?_, hm2, ?_⟩
  · exact (play_sleep_ranges 60 (fun i => 10 * (i : ℤ)) (fun _ => (1 : ℚ)/2) 9 hu
      (50, (75 : ℚ)/2) hm1).1 (by norm_num)
  · exact (play_sleep_ranges 60 (fun i => 10 * (i : ℤ)) (fun _ => (1 : ℚ)/2) 9 hu
      (40, (125 : ℚ)/2) hm2).2 (by norm_num)

lemma updateLoop_range (total : ℤ) :
    ∀ (n : ℕ) (prev done : ℤ), done = prev + n → done < total →
      updateLoop done total n prev
        = (List.range n).map (fun i : ℕ => prev + 1 + (i : ℤ)) := by
  intro n
  induction n with
  | zero =>
    intro prev done _ _
    rfl
  | succ m ih =>
    intro prev done hdn hlt
    have hlt' : prev < done := by omega
    have hnotge : ¬ done ≥ total := by omega
    rw [updateLoop, if_pos hlt', if_neg hnotge]
    rw [ih (prev + 1) done (by omega) hlt]
    rw [List.range_succ_eq_map]
    simp only [List.map_cons, List.map_map]
    congr 1
    · push_cast
      ring
    · apply List.map_congr_left
      intro i _
      simp only [Function.comp_apply, Nat.succ_eq_add_one]
      push_cast
      ring

/-- C8 (amended):  the `process_quest.update` loop of `src/new_main.py`
steps the displayed value toward the most recently reported `done` by
exactly **1** per tick — not by `max(1, (target - displayed) / 8)`; no
easing factor appears in the source.  While `done < total` it never
overshoots and converges exactly to `done`; when the reported `done` has
reached `total` the loop stops the task and breaks after a single
increment (so the displayed value then ends at one more than it started,
not at the target). -/
theorem update_steps_by_one (prev done total : ℤ) :
    (done < total → update prev done total
        = (List.range (done - prev).toNat).map (fun i : ℕ => prev + 1 + (i : ℤ))) ∧
    (done ≥ total → prev < done → update prev done total = [prev + 1]) ∧
    (prev ≤ done → done < total → (update prev done total).getLastD prev = done) := by
  refine ⟨?_, ?_, ?_⟩
  · intro hlt
    by_cases hpd : prev ≤ done
    · exact updateLoop_range total (done - prev).toNat prev done (by omega) hlt
    · have h0 : (done - prev).toNat = 0 := by omega
      rw [update, h0]
      rfl
  · intro hge hpd
    obtain ⟨m, hm⟩ : ∃ m, (done - prev).toNat = m + 1 :=
      ⟨(done - prev).toNat - 1, by omega⟩
    rw [update, hm, updateLoop, if_pos hpd, if_pos hge]
  · intro hpd hlt
    have h1 := updateLoop_range total (done - prev).toNat prev done (by omega) hlt
    rw [update, h1]
    cases hn : (done - prev).toNat with
    | zero =>
      have : done = prev := by omega
      simp [this]
    | succ m =>
      rw [List.range_succ, List.map_append]
      simp only [List.map_cons, List.map_nil]
      rw [List.getLastD_concat]
      omega

/-- Counterexample for C8: a burst jumping a job from displayed 0 to
reported 80 (total 100).  The spec's easing rule predicts a first step of
`max(1, (80 - 0) / 8) = 10`; the code posts `1` as its first stepped
value: the aggregator does not step by `max(1, (target - displayed) /
easing_factor)`. -/
theorem update_not_spec_easing :
    (update 0 80 100).head? = some 1 ∧
    specEasingStep 0 80 = 10 ∧
    (update 0 80 100).head? ≠ some (specEasingStep 0 80) := by
  refine ⟨by decide, by decide, by decide⟩

/-- Witness for C8: instantiates `update_steps_by_one` at displayed 0,
reported 5, total 100. -/
theorem update_steps_by_one_witness :
    (5 : ℤ) < 100 ∧
    update 0 5 100 = (List.range ((5 : ℤ) - 0).toNat).map (fun i : ℕ => 0 + 1 + (i : ℤ)) ∧
    (update 0 5 100).getLastD 0 = 5 :=
  ⟨by norm_num, (update_steps_by_one 0 5 100).1 (by norm_num),
    (update_steps_by_one 0 5 100).2.2 (by norm_num) (by norm_num)⟩
